import Mathlib

/-!
Verification of the Punkbrew extraction / caching / deduplication core.

Shallow embedding of:
- `PunkAPIExtractor._extract_async` and `_fetch_page_with_retry`
  (src/extract/punk_api_extractor.py)
- `FullDatasetLoader.extract_all_breweries` and `transform_brewery_to_beer`
  (load_full_dataset.py)
- `MultiAPIExtractor` transforms and `extract_with_fallback`
  (src/extract/multi_api_extractor.py)
- `remove_duplicates` (remove_duplicates.py, BigQuery rewrite)
- `LocalCacheService` / `EnhancedAPIService` cache validity and keys
  (local_cache_service.py, enhanced_api_service.py)

Network responses, wall-clock time and file mtimes are passed in explicitly;
sleeps and logging are elided.  Machine time is modelled as `ℚ`.
-/

/- ### Retrying page fetch: `PunkAPIExtractor._fetch_page_with_retry`
   (punk_api_extractor.py lines 148-178) -/

/-- Outcome of one HTTP attempt as seen inside `_fetch_page_with_retry`:
an HTTP response (status code plus decoded JSON body), an
`asyncio.TimeoutError`, or any other exception. -/
inductive AttemptResult (α : Type) where
  | http (status : Nat) (body : List α)
  | timeout
  | exn
deriving DecidableEq

/-- The attempt loop of `_fetch_page_with_retry`: `responses i` is what attempt
`i` (0-based) would observe.  Only a 200 response returns early with its body;
a 429 sleeps and falls through to the next attempt, any other status is logged
and falls through, timeouts and exceptions fall through; after the last attempt
the function returns `[]`.  The second component counts attempts performed
(the backoff sleeps are elided). -/
def fetchRetryLoop (responses : Nat → AttemptResult α) : Nat → Nat → List α × Nat
  | 0, used => ([], used)
  | remaining + 1, used =>
    match responses used with
    | .http status body =>
      if status = 200 then (body, used + 1)
      else fetchRetryLoop responses remaining (used + 1)
    | .timeout => fetchRetryLoop responses remaining (used + 1)
    | .exn => fetchRetryLoop responses remaining (used + 1)

/-- `_fetch_page_with_retry` with `retry_attempts` attempts available. -/
def fetch_page_with_retry (responses : Nat → AttemptResult α) (retry_attempts : Nat) :
    List α × Nat :=
  fetchRetryLoop responses retry_attempts 0

/- ### Pagination loop: `PunkAPIExtractor._extract_async`
   (punk_api_extractor.py lines 97-146) -/

/-- The `while True` pagination loop of `_extract_async`, over an abstract page
source: `src p` is the value `_fetch_page_with_retry` produces for page `p`
(so a definitively failed page appears as `[]`, indistinguishable from
end-of-data).  Returns the accumulated records and the number of page requests
issued.  The source loop is unbounded (it has no page ceiling), so the
embedding carries `fuel`; every theorem below supplies enough fuel for the run
to stop on its own, and fuel exhaustion returns `([], 0)`. -/
def extractAsyncLoop [DecidableEq α] (src : Nat → List α) (page_size : Nat) :
    Nat → Nat → List α × Nat
  | 0, _ => ([], 0)
  | fuel + 1, page =>
    let page_data := src page
    if page_data = [] then ([], 1)
    else if page_data.length < page_size then (page_data, 1)
    else
      let r := extractAsyncLoop src page_size fuel (page + 1)
      (page_data ++ r.1, r.2 + 1)

/-- `_extract_async`: the pagination loop started at page 1. -/
def extract_async [DecidableEq α] (src : Nat → List α) (page_size fuel : Nat) :
    List α × Nat :=
  extractAsyncLoop src page_size fuel 1

/-- The pages of a list `l` served `per_page` at a time, pages numbered from 1:
what a well-behaved mock source returns for page `p`. -/
def listPages (l : List α) (per_page p : Nat) : List α :=
  (l.drop ((p - 1) * per_page)).take per_page

/-- A mock source holding exactly `N` records (numbered `0..N-1`) in pages of
size `per_page`. -/
def mockPages (N per_page p : Nat) : List Nat :=
  listPages (List.range N) per_page p

/- ### Pagination loop with 50-page ceiling:
   `FullDatasetLoader.extract_all_breweries` (load_full_dataset.py lines 41-95) -/

/-- The `while True` loop of `extract_all_breweries`.  `src p` is the outcome of
the page-`p` HTTP request: `.error` models a raised exception (network error or
`raise_for_status`), `.ok` the decoded JSON list.  On success: stop on an empty
page, stop after a short page (fewer than `batch_size = 200`), otherwise advance,
stopping once the next page number exceeds 50.  On an exception the loop advances
to the next page (subject to the same 50-page ceiling).  Returns the accumulated
records and the number of page requests issued. -/
def extractAllLoop [DecidableEq α] (src : Nat → Except Unit (List α)) (page : Nat) :
    List α × Nat :=
  match src page with
  | .error _ =>
    if h : 50 < page + 1 then ([], 1)
    else
      let r := extractAllLoop src (page + 1)
      (r.1, r.2 + 1)
  | .ok breweries =>
    if breweries = [] then ([], 1)
    else if breweries.length < 200 then (breweries, 1)
    else if h : 50 < page + 1 then (breweries, 1)
    else
      let r := extractAllLoop src (page + 1)
      (breweries ++ r.1, r.2 + 1)
termination_by 51 - page
decreasing_by all_goals omega

/-- `extract_all_breweries`: the loop started at page 1. -/
def extract_all_breweries [DecidableEq α] (src : Nat → Except Unit (List α)) :
    List α × Nat :=
  extractAllLoop src 1

/-- A source of five pages of data in which page 3 always fails definitively
(raises after all retries) and every later page is empty. -/
def fivePageSrc (P1 P2 P4 P5 : List α) : Nat → Except Unit (List α)
  | 1 => .ok P1
  | 2 => .ok P2
  | 3 => .error ()
  | 4 => .ok P4
  | 5 => .ok P5
  | _ => .ok []

/-- The same five-page scenario as seen by `_extract_async`, whose retry helper
collapses a definitively failed page to `[]`. -/
def asyncFivePageSrc (P1 P2 P4 P5 : List α) : Nat → List α
  | 1 => P1
  | 2 => P2
  | 3 => []
  | 4 => P4
  | 5 => P5
  | _ => []

/- ### Source-to-standard transforms and fallback:
   `MultiAPIExtractor` (multi_api_extractor.py) -/

/-- A Punk API beer, restricted to the fields `_transform_punk_beer` inspects
for the claims: `yeast` is the yeast name the source flattens out of
`ingredients['yeast']` (first entry's name when it is a list).  All other
fields are copied verbatim into the output and are elided here. -/
structure PunkBeer where
  id : Nat
  name : String
  yeast : String
deriving DecidableEq

/-- An Open Brewery DB brewery, restricted to the fields the transforms
inspect for the claims. -/
structure Brewery where
  id : Nat
  name : String
  brewery_type : String
deriving DecidableEq

/-- The pipeline record produced by the transforms, restricted to the fields
the claims read. -/
structure StdRecord where
  beer_id : String
  name : String
  category : String
  subcategory : String
  data_source : String
deriving DecidableEq

/-- Python's `pat in s` substring test (for nonempty `pat`). -/
def strContains (s pat : String) : Bool := (s.splitOn pat).length != 1

/-- `MultiAPIExtractor._transform_punk_beer` (multi_api_extractor.py lines
112-156): category from the lowercased yeast name, `'other'` when the
substring heuristics match nothing. -/
def transform_punk_beer (beer : PunkBeer) : StdRecord :=
  let yeast_name := beer.yeast.toLower
  let category :=
    if strContains yeast_name "ale" || strContains yeast_name "cerevisiae" then "ale"
    else if strContains yeast_name "lager" || strContains yeast_name "pastorianus" then "lager"
    else "other"
  { beer_id := toString beer.id
    name := beer.name
    category := category
    subcategory := yeast_name
    data_source := "punk_api" }

/-- The `category_mapping` dict of `MultiAPIExtractor._transform_brewery_to_beer`
(multi_api_extractor.py lines 164-176), with the `.get(brewery_type, 'other')`
default. -/
def category_mapping (brewery_type : String) : String :=
  match brewery_type with
  | "micro" => "ale"
  | "nano" => "ale"
  | "regional" => "lager"
  | "brewpub" => "ale"
  | "large" => "lager"
  | "planning" => "other"
  | "bar" => "other"
  | "contract" => "other"
  | "proprietor" => "other"
  | _ => "other"

/-- `MultiAPIExtractor._transform_brewery_to_beer` (multi_api_extractor.py lines
158-214), restricted to the fields the claims read; note the fixed
`data_source := "openbrewery_db"`. -/
def transform_brewery_to_beer (brewery : Brewery) : StdRecord :=
  let category := category_mapping brewery.brewery_type
  { beer_id := "brewery_" ++ toString brewery.id
    name := brewery.name ++ " House Beer"
    category := category
    subcategory := brewery.brewery_type
    data_source := "openbrewery_db" }

/-- The extended `category_mapping` dict of
`FullDatasetLoader.transform_brewery_to_beer` (load_full_dataset.py lines
102-117). -/
def category_mapping_full (brewery_type : String) : String :=
  match brewery_type with
  | "micro" => "ale"
  | "nano" => "ale"
  | "regional" => "lager"
  | "brewpub" => "ale"
  | "large" => "lager"
  | "planning" => "other"
  | "bar" => "other"
  | "contract" => "other"
  | "proprietor" => "other"
  | "closed" => "other"
  | "taproom" => "ale"
  | "beergarden" => "lager"
  | _ => "other"

/-- `FullDatasetLoader.transform_brewery_to_beer` (load_full_dataset.py lines
97-191), restricted to the fields the claims read (the ABV/IBU estimates and
generated texts are elided). -/
def transform_brewery_to_beer_full (brewery : Brewery) : StdRecord :=
  let category := category_mapping_full brewery.brewery_type
  { beer_id := "brewery_" ++ toString brewery.id
    name := brewery.name ++ " House Beer"
    category := category
    subcategory := brewery.brewery_type
    data_source := "openbrewery_db" }

/-- The external world `MultiAPIExtractor.extract_with_fallback` interacts
with: each source's connectivity-probe outcome and the outcome of its fetch
(`.error` models a raised exception from `requests.get`/`raise_for_status`). -/
structure APIWorld where
  punk_conn : Bool
  punk_response : Except Unit (List PunkBeer)
  openbrewery_conn : Bool
  openbrewery_response : Except Unit (List Brewery)

/-- `MultiAPIExtractor.extract_punk_api_data` (multi_api_extractor.py lines
60-82): on success transform every beer, on exception return `[]`. -/
def extract_punk_api_data (w : APIWorld) : List StdRecord :=
  match w.punk_response with
  | .ok beers => beers.map transform_punk_beer
  | .error _ => []

/-- `MultiAPIExtractor.extract_openbrewery_data` (multi_api_extractor.py lines
84-110): on success transform every brewery, on exception return `[]`. -/
def extract_openbrewery_data (w : APIWorld) : List StdRecord :=
  match w.openbrewery_response with
  | .ok bs => bs.map transform_brewery_to_beer
  | .error _ => []

/-- `MultiAPIExtractor.extract_with_fallback` (multi_api_extractor.py lines
234-254): probe the primary, use its data when nonempty; otherwise probe the
secondary, use its data when nonempty; otherwise `[]`. -/
def extract_with_fallback (w : APIWorld) : List StdRecord :=
  let step2 : List StdRecord :=
    if w.openbrewery_conn then
      let data := extract_openbrewery_data w
      if data ≠ [] then data else []
    else []
  if w.punk_conn then
    let data := extract_punk_api_data w
    if data ≠ [] then data else step2
  else step2

/- ### Deduplication: `remove_duplicates` (remove_duplicates.py lines 58-73) -/

/-- A row of `staging_beers` restricted to the columns the dedup query reads;
`rest` abstracts the remaining columns carried along by `SELECT *`. -/
structure BeerRow where
  beer_id : String
  name : String
  processed_at : Int
  rest : String
deriving DecidableEq

/-- The `PARTITION BY beer_id, name` key. -/
def dedupKey (r : BeerRow) : String × String := (r.beer_id, r.name)

/-- Row `r` ranks above an earlier same-key row `s` under
`ORDER BY processed_at DESC` with ties broken by input order:
`s` must be strictly older. -/
def beatsEarlier (r s : BeerRow) : Bool :=
  !(decide (dedupKey s = dedupKey r)) || decide (s.processed_at < r.processed_at)

/-- Row `r` ranks above a later same-key row `s`: `s` must not be strictly
newer (on a timestamp tie the earlier row wins). -/
def beatsLater (r s : BeerRow) : Bool :=
  !(decide (dedupKey s = dedupKey r)) || decide (s.processed_at ≤ r.processed_at)

/-- `ROW_NUMBER() OVER (PARTITION BY beer_id, name ORDER BY processed_at DESC)`
equals 1 for the row `r` sitting between `before` and `after` in input order,
reading ROW_NUMBER's unspecified tie order as stable input order. -/
def rowNumberOne (before : List BeerRow) (r : BeerRow) (after : List BeerRow) : Bool :=
  before.all (beatsEarlier r) && after.all (beatsLater r)

/-- One pass over the table keeping exactly the `row_num = 1` rows. -/
def dedupPass (before : List BeerRow) : List BeerRow → List BeerRow
  | [] => []
  | r :: after =>
    (if rowNumberOne before r after then [r] else []) ++ dedupPass (before ++ [r]) after

/-- The deduplicating rewrite of `remove_duplicates` (remove_duplicates.py lines
58-73): keep, within each `(beer_id, name)` partition, the single row whose
`ROW_NUMBER` under `ORDER BY processed_at DESC` is 1. -/
def remove_duplicates (rows : List BeerRow) : List BeerRow := dedupPass [] rows

/- ### Caches: `LocalCacheService` (local_cache_service.py) and
   `EnhancedAPIService` (enhanced_api_service.py) -/

/-- The per-namespace TTL table `cache_ttl` (local_cache_service.py lines
22-27), read with `.get(cache_key, 3600)` (line 42). -/
def cache_ttl (cache_key : String) : ℚ :=
  match cache_key with
  | "analytics_summary" => 3600
  | "brewery_analytics" => 1800
  | "system_status" => 300
  | "geographic_data" => 7200
  | _ => 3600

/-- The JSON wrapper `set` writes to the cache file (local_cache_service.py
lines 68-73); in this model the file mtime coincides with `cached_at`. -/
structure CacheData (α : Type) where
  data : α
  cached_at : ℚ
  ttl_seconds : ℚ
deriving DecidableEq

/-- The cache directory: one optional file per cache key. -/
def LocalCacheState (α : Type) := String → Option (CacheData α)

/-- `LocalCacheService.set` at wall-clock time `now`. -/
def lc_set (st : LocalCacheState α) (key : String) (payload : α) (now : ℚ) :
    LocalCacheState α :=
  fun k => if k = key then some ⟨payload, now, cache_ttl key⟩ else st k

/-- `LocalCacheService._is_cache_valid` (local_cache_service.py lines 33-44):
the file exists and its age `now - mtime` is strictly below the namespace TTL. -/
def lc_is_cache_valid (st : LocalCacheState α) (key : String) (now : ℚ) : Bool :=
  match st key with
  | none => false
  | some entry => decide (now - entry.cached_at < cache_ttl key)

/-- `LocalCacheService.get` (local_cache_service.py lines 46-60): the stored
wrapper when the entry is valid, else a miss. -/
def lc_get (st : LocalCacheState α) (key : String) (now : ℚ) : Option (CacheData α) :=
  if lc_is_cache_valid st key now then st key else none

/-- An entry of `EnhancedAPIService.cache`: payload plus the `time.time()` at
which it was stored (enhanced_api_service.py lines 84-87). -/
structure EnhCacheEntry (α : Type) where
  data : α
  timestamp : ℚ
deriving DecidableEq

/-- `EnhancedAPIService.cache_ttl = 300` (enhanced_api_service.py line 30). -/
def enh_cache_ttl : ℚ := 300

/-- `EnhancedAPIService._is_cache_valid` (enhanced_api_service.py lines 43-49):
a missing entry is invalid, otherwise the age must be strictly below the TTL. -/
def enh_is_cache_valid (entry : Option (EnhCacheEntry α)) (now : ℚ) : Bool :=
  match entry with
  | none => false
  | some e => decide (now - e.timestamp < enh_cache_ttl)

/- ### Cache-key fingerprint: `EnhancedAPIService._get_cache_key`
   (enhanced_api_service.py lines 36-41) -/

/-- The order in which Python's `sorted` arranges `(key, value)` items:
lexicographic on the pair. -/
def pairLe (a b : String × String) : Prop :=
  a.1 < b.1 ∨ (a.1 = b.1 ∧ a.2 ≤ b.2)

instance : DecidableRel pairLe := fun a b => by
  unfold pairLe; infer_instance

/-- `EnhancedAPIService._get_cache_key`: for a nonempty parameter mapping,
`endpoint ++ "?" ++ "&".join(f"k=v" for sorted items)`; otherwise the endpoint
alone.  `params` is the mapping's item list in insertion order. -/
def getCacheKey (endpoint : String) (params : List (String × String)) : String :=
  if params = [] then endpoint
  else
    let param_str :=
      String.intercalate "&" ((params.insertionSort pairLe).map fun kv => kv.1 ++ "=" ++ kv.2)
    endpoint ++ "?" ++ param_str

/- ### Request-parameter clamping (multi_api_extractor.py lines 60-110,
   enhanced_api_service.py lines 101-107) -/

/-- The params dict of `MultiAPIExtractor.extract_punk_api_data`
(multi_api_extractor.py line 64): `{'per_page': min(limit, 80)}`. -/
structure PunkRequestParams where
  per_page : Nat
deriving DecidableEq

def extract_punk_api_params (limit : Nat) : PunkRequestParams :=
  ⟨min limit 80⟩

/-- The params dict of `MultiAPIExtractor.extract_openbrewery_data`
(multi_api_extractor.py lines 88-91): `per_page = min(limit, 200)` plus the
fixed `by_type` filter. -/
structure OpenBreweryRequestParams where
  per_page : Nat
  by_type : String
deriving DecidableEq

def extract_openbrewery_params (limit : Nat) : OpenBreweryRequestParams :=
  ⟨min limit 200, "micro,nano,regional,brewpub"⟩

/-- The params dict of `EnhancedAPIService.search_breweries`
(enhanced_api_service.py lines 103-106): query plus `per_page = min(limit, 50)`. -/
structure SearchRequestParams where
  query : String
  per_page : Nat
deriving DecidableEq

def search_breweries_params (query : String) (limit : Nat) : SearchRequestParams :=
  ⟨query, min limit 50⟩

/- ### Theorems -/

/-- A category value the normalized schema admits. -/
def isKnownCategory (c : String) : Prop := c = "ale" ∨ c = "lager" ∨ c = "other"

/-- C9: every record produced by the source-specific adapters
(`_transform_punk_beer`, `_transform_brewery_to_beer`, and
`FullDatasetLoader.transform_brewery_to_beer`) has its `category` field equal
to `"ale"`, `"lager"`, or the sentinel `"other"` (the field is present by
construction of `StdRecord`). -/
theorem adapters_category_always_known (pb : PunkBeer) (b b' : Brewery) :
    isKnownCategory (transform_punk_beer pb).category ∧
    isKnownCategory (transform_brewery_to_beer b).category ∧
    isKnownCategory (transform_brewery_to_beer_full b').category := by
  refine ⟨?_, ?_, ?_⟩
  · unfold transform_punk_beer isKnownCategory
    dsimp only
    split
    · simp
    · split <;> simp
  · unfold transform_brewery_to_beer isKnownCategory category_mapping
    dsimp only
    split <;> simp
  · unfold transform_brewery_to_beer_full isKnownCategory category_mapping_full
    dsimp only
    split <;> simp

/-- C10: the `per_page` actually sent to each external source is the requested
limit clamped to that source's maximum — `min(limit, 80)` for the Punk API,
`min(limit, 200)` for Open Brewery DB, `min(limit, 50)` for brewery search —
so it never exceeds the source maximum, and an over-limit request is silently
clamped (the functions are total: nothing is rejected). -/
theorem per_page_clamped_to_source_max (limit : Nat) (q : String) :
    (extract_punk_api_params limit).per_page = min limit 80 ∧
    (extract_punk_api_params limit).per_page ≤ 80 ∧
    (extract_openbrewery_params limit).per_page = min limit 200 ∧
    (extract_openbrewery_params limit).per_page ≤ 200 ∧
    (search_breweries_params q limit).per_page = min limit 50 ∧
    (search_breweries_params q limit).per_page ≤ 50 ∧
    (80 ≤ limit → (extract_punk_api_params limit).per_page = 80) ∧
    (200 ≤ limit → (extract_openbrewery_params limit).per_page = 200) ∧
    (50 ≤ limit → (search_breweries_params q limit).per_page = 50) := by
  unfold extract_punk_api_params extract_openbrewery_params search_breweries_params
  refine ⟨rfl, Nat.min_le_right _ _, rfl, Nat.min_le_right _ _, rfl, Nat.min_le_right _ _,
    ?_, ?_, ?_⟩ <;> intro h <;> simp [Nat.min_eq_right h]

/-- C10 witness at `limit = 1000`, `query = "stone"`. -/
theorem per_page_clamped_to_source_max_witness :
    (extract_punk_api_params 1000).per_page = min 1000 80 ∧
    (extract_punk_api_params 1000).per_page ≤ 80 ∧
    (extract_openbrewery_params 1000).per_page = min 1000 200 ∧
    (extract_openbrewery_params 1000).per_page ≤ 200 ∧
    (search_breweries_params "stone" 1000).per_page = min 1000 50 ∧
    (search_breweries_params "stone" 1000).per_page ≤ 50 ∧
    (80 ≤ 1000 → (extract_punk_api_params 1000).per_page = 80) ∧
    (200 ≤ 1000 → (extract_openbrewery_params 1000).per_page = 200) ∧
    (50 ≤ 1000 → (search_breweries_params "stone" 1000).per_page = 50) :=
  per_page_clamped_to_source_max 1000 "stone"

/-- C7: an entry written at time `T` under key `key` is, for `LocalCacheService`,
a hit (returning the stored wrapper) at any time strictly before
`T + cache_ttl key` and a miss at any time at or after `T + cache_ttl key`
(validity is the strict inequality `age < ttl`, TTL looked up per namespace);
likewise an `EnhancedAPIService` entry stamped `T2` is valid strictly before
`T2 + enh_cache_ttl` and invalid at or after it. -/
theorem cache_ttl_strict_boundary {α : Type} (st : LocalCacheState α) (key : String)
    (payload : α) (T now now' : ℚ) :
    (now < T + cache_ttl key →
      lc_get (lc_set st key payload T) key now = some ⟨payload, T, cache_ttl key⟩) ∧
    (T + cache_ttl key ≤ now' →
      lc_get (lc_set st key payload T) key now' = none) ∧
    ∀ (e : α) (T2 n2 n2' : ℚ),
      (n2 < T2 + enh_cache_ttl →
        enh_is_cache_valid (some ⟨e, T2⟩) n2 = true) ∧
      (T2 + enh_cache_ttl ≤ n2' →
        enh_is_cache_valid (some ⟨e, T2⟩) n2' = false) := by
  refine ⟨?_, ?_, ?_⟩
  · intro h
    have hv : now - T < cache_ttl key := by linarith
    simp [lc_get, lc_is_cache_valid, lc_set, hv]
  · intro h
    have hv : ¬ (now' - T < cache_ttl key) := by
      intro hc; linarith
    simp [lc_get, lc_is_cache_valid, lc_set, hv]
  · intro e T2 n2 n2'
    constructor
    · intro h
      have hv : n2 - T2 < enh_cache_ttl := by linarith
      simp [enh_is_cache_valid, hv]
    · intro h
      have hv : ¬ (n2' - T2 < enh_cache_ttl) := by
        intro hc; linarith
      simp [enh_is_cache_valid, hv]

/-- C7 witness: key `"system_status"` (TTL 300) written at `T = 0`, hit at
time 299, miss at time 300; enhanced entry stamped 0, valid at 299, invalid
at 300. -/
theorem cache_ttl_strict_boundary_witness :
    lc_get (lc_set (fun _ => (none : Option (CacheData Nat))) "system_status" 42 0)
      "system_status" 299 = some ⟨42, 0, cache_ttl "system_status"⟩ ∧
    lc_get (lc_set (fun _ => (none : Option (CacheData Nat))) "system_status" 42 0)
      "system_status" 300 = none ∧
    enh_is_cache_valid (some ⟨(7 : Nat), 0⟩) 299 = true ∧
    enh_is_cache_valid (some ⟨(7 : Nat), 0⟩) 300 = false := by
  have h := cache_ttl_strict_boundary (fun _ => (none : Option (CacheData Nat)))
    "system_status" 42 0 299 300
  have he := h.2.2 (7 : Nat) 0 299 300
  have httl : cache_ttl "system_status" = 300 := rfl
  refine ⟨h.1 ?_, h.2.1 ?_, he.1 ?_, he.2 ?_⟩
  · rw [httl]; norm_num
  · rw [httl]; norm_num
  · unfold enh_cache_ttl; norm_num
  · unfold enh_cache_ttl; norm_num

instance : IsTotal (String × String) pairLe := by
  constructor
  intro a b
  rcases lt_trichotomy a.1 b.1 with h | h | h
  · exact Or.inl (Or.inl h)
  · rcases le_total a.2 b.2 with h2 | h2
    · exact Or.inl (Or.inr ⟨h, h2⟩)
    · exact Or.inr (Or.inr ⟨h.symm, h2⟩)
  · exact Or.inr (Or.inl h)

instance : IsTrans (String × String) pairLe := by
  constructor
  intro a b c hab hbc
  rcases hab with h1 | ⟨h1, h1'⟩
  · rcases hbc with h2 | ⟨h2, _⟩
    · exact Or.inl (lt_trans h1 h2)
    · exact Or.inl (h2 ▸ h1)
  · rcases hbc with h2 | ⟨h2, h2'⟩
    · exact Or.inl (h1 ▸ h2)
    · exact Or.inr ⟨h1.trans h2, le_trans h1' h2'⟩

instance : IsAntisymm (String × String) pairLe := by
  constructor
  intro a b hab hba
  rcases hab with h1 | ⟨h1, h1'⟩
  · rcases hba with h2 | ⟨h2, _⟩
    · exact absurd h2 (lt_asymm h1)
    · exact absurd (h2 ▸ h1) (lt_irrefl _)
  · rcases hba with h2 | ⟨h2, h2'⟩
    · exact absurd (h1 ▸ h2) (lt_irrefl _)
    · exact Prod.ext h1 (le_antisymm h1' h2')

/-- C8: the cache-key fingerprint is insensitive to parameter insertion order —
for any endpoint and any two item lists holding the same key-value pairs
(permutations of one another, as set-equal Python dicts are), the derived
cache keys coincide. -/
theorem cache_key_insertion_order_independent (endpoint : String)
    (P1 P2 : List (String × String)) (hperm : List.Perm P1 P2) :
    getCacheKey endpoint P1 = getCacheKey endpoint P2 := by
  unfold getCacheKey
  by_cases h1 : P1 = []
  · have h2 : P2 = [] := by
      subst h1
      exact (List.Perm.nil_eq hperm).symm
    rw [h1, h2]
  · have h2 : P2 ≠ [] := by
      intro hc
      subst hc
      exact h1 (List.Perm.eq_nil hperm)
    rw [if_neg h1, if_neg h2]
    have hsorteq : P1.insertionSort pairLe = P2.insertionSort pairLe := by
      apply List.eq_of_perm_of_sorted
        ((List.perm_insertionSort pairLe P1).trans
          (hperm.trans (List.perm_insertionSort pairLe P2).symm))
        (List.sorted_insertionSort pairLe P1) (List.sorted_insertionSort pairLe P2)
    rw [hsorteq]

/-- C8 witness: the same two query parameters in both insertion orders give
the same fingerprint. -/
theorem cache_key_insertion_order_independent_witness :
    getCacheKey "/search" [("query", "stone"), ("per_page", "5")] =
      getCacheKey "/search" [("per_page", "5"), ("query", "stone")] :=
  cache_key_insertion_order_independent "/search"
    [("query", "stone"), ("per_page", "5")] [("per_page", "5"), ("query", "stone")]
    (List.Perm.swap _ _ _)

theorem beatsEarlier_iff (r s : BeerRow) :
    beatsEarlier r s = true ↔
      (dedupKey s = dedupKey r → s.processed_at < r.processed_at) := by
  unfold beatsEarlier
  by_cases h : dedupKey s = dedupKey r <;> simp [h]

theorem beatsLater_iff (r s : BeerRow) :
    beatsLater r s = true ↔
      (dedupKey s = dedupKey r → s.processed_at ≤ r.processed_at) := by
  unfold beatsLater
  by_cases h : dedupKey s = dedupKey r <;> simp [h]

theorem rowNumberOne_iff (before : List BeerRow) (r : BeerRow) (after : List BeerRow) :
    rowNumberOne before r after = true ↔
      ((∀ s ∈ before, dedupKey s = dedupKey r → s.processed_at < r.processed_at) ∧
       (∀ s ∈ after, dedupKey s = dedupKey r → s.processed_at ≤ r.processed_at)) := by
  unfold rowNumberOne
  simp only [Bool.and_eq_true, List.all_eq_true, beatsEarlier_iff, beatsLater_iff]

/-- Every kept row sits at a concrete position of the input and has
`ROW_NUMBER = 1` there. -/
theorem mem_dedupPass :
    ∀ (l before : List BeerRow) (r : BeerRow), r ∈ dedupPass before l →
      ∃ b a, l = b ++ r :: a ∧ rowNumberOne (before ++ b) r a = true := by
  intro l
  induction l with
  | nil => intro before r hr; simp [dedupPass] at hr
  | cons x after ih =>
    intro before r hr
    unfold dedupPass at hr
    rcases List.mem_append.mp hr with hl | hrest
    · by_cases hk : rowNumberOne before x after = true
      · rw [if_pos hk] at hl
        have hx : r = x := by simpa using hl
        subst hx
        exact ⟨[], after, by simp, by simpa using hk⟩
      · rw [if_neg hk] at hl
        simp at hl
    · obtain ⟨b, a, hla, hkeep⟩ := ih (before ++ [x]) r hrest
      refine ⟨x :: b, a, by simp [hla], ?_⟩
      have : before ++ x :: b = (before ++ [x]) ++ b := by simp
      rw [this]
      exact hkeep

/-- Every kept row comes from the input. -/
theorem dedupPass_subset :
    ∀ (l before : List BeerRow) (r : BeerRow), r ∈ dedupPass before l → r ∈ l := by
  intro l before r hr
  obtain ⟨b, a, hla, _⟩ := mem_dedupPass l before r hr
  rw [hla]
  simp

/-- After one pass, kept rows have pairwise distinct dedup keys. -/
theorem dedupPass_pairwise :
    ∀ (l before : List BeerRow),
      (dedupPass before l).Pairwise (fun a b => dedupKey a ≠ dedupKey b) := by
  intro l
  induction l with
  | nil => intro before; simp [dedupPass]
  | cons x after ih =>
    intro before
    unfold dedupPass
    by_cases hk : rowNumberOne before x after = true
    · rw [if_pos hk]
      simp only [List.singleton_append, List.pairwise_cons]
      refine ⟨?_, ih (before ++ [x])⟩
      intro s hs hkey
      obtain ⟨b, a, hla, hkeep⟩ := mem_dedupPass after (before ++ [x]) s hs
      have hxmem : x ∈ (before ++ [x]) ++ b := by simp
      have hxlt : x.processed_at < s.processed_at :=
        ((rowNumberOne_iff _ _ _).mp hkeep).1 x hxmem hkey
      have hsmem : s ∈ after := by rw [hla]; simp
      have hsle : s.processed_at ≤ x.processed_at :=
        ((rowNumberOne_iff _ _ _).mp hk).2 s hsmem hkey.symm
      exact absurd (lt_of_lt_of_le hxlt hsle) (lt_irrefl _)
    · rw [if_neg hk]
      simpa using ih (before ++ [x])

/-- C3: after `remove_duplicates`, at most one row per `(beer_id, name)` key
survives (pairwise distinct keys); every survivor carries the maximum
`processed_at` of its key group in the input; and each survivor is the
first-seen row attaining that maximum (every earlier same-key row is strictly
older). -/
theorem dedup_one_per_key_latest_first_seen (rows : List BeerRow) :
    (remove_duplicates rows).Pairwise (fun a b => dedupKey a ≠ dedupKey b) ∧
    (∀ r ∈ remove_duplicates rows, ∀ s ∈ rows, dedupKey s = dedupKey r →
      s.processed_at ≤ r.processed_at) ∧
    (∀ r ∈ remove_duplicates rows, ∃ b a, rows = b ++ r :: a ∧
      ∀ s ∈ b, dedupKey s = dedupKey r → s.processed_at < r.processed_at) := by
  refine ⟨dedupPass_pairwise rows [], ?_, ?_⟩
  · intro r hr s hs hkey
    obtain ⟨b, a, hla, hkeep⟩ := mem_dedupPass rows [] r hr
    rw [List.nil_append] at hkeep
    have hk := (rowNumberOne_iff _ _ _).mp hkeep
    rw [hla] at hs
    rcases List.mem_append.mp hs with hb | hra
    · exact le_of_lt (hk.1 s hb hkey)
    · rcases List.mem_cons.mp hra with hveq | ha
      · rw [hveq]
      · exact hk.2 s ha hkey
  · intro r hr
    obtain ⟨b, a, hla, hkeep⟩ := mem_dedupPass rows [] r hr
    rw [List.nil_append] at hkeep
    exact ⟨b, a, hla, ((rowNumberOne_iff _ _ _).mp hkeep).1⟩

/-- C3 witness: an input with a duplicated key `("1","a")` (timestamps 5 then 7)
and a singleton key `("2","b")`; the survivor of the duplicated key is the row
with timestamp 7. -/
theorem dedup_one_per_key_latest_first_seen_witness :
    (remove_duplicates [⟨"1", "a", 5, "x"⟩, ⟨"1", "a", 7, "y"⟩, ⟨"2", "b", 3, "z"⟩]).Pairwise
      (fun a b => dedupKey a ≠ dedupKey b) ∧
    (⟨"1", "a", 5, "x"⟩ : BeerRow).processed_at ≤ (⟨"1", "a", 7, "y"⟩ : BeerRow).processed_at ∧
    ∃ b a, [⟨"1", "a", 5, "x"⟩, ⟨"1", "a", 7, "y"⟩, ⟨"2", "b", 3, "z"⟩] =
        b ++ (⟨"1", "a", 7, "y"⟩ : BeerRow) :: a ∧
      ∀ s ∈ b, dedupKey s = dedupKey ⟨"1", "a", 7, "y"⟩ →
        s.processed_at < (⟨"1", "a", 7, "y"⟩ : BeerRow).processed_at := by
  have h := dedup_one_per_key_latest_first_seen
    [⟨"1", "a", 5, "x"⟩, ⟨"1", "a", 7, "y"⟩, ⟨"2", "b", 3, "z"⟩]
  have hmem : (⟨"1", "a", 7, "y"⟩ : BeerRow) ∈
      remove_duplicates [⟨"1", "a", 5, "x"⟩, ⟨"1", "a", 7, "y"⟩, ⟨"2", "b", 3, "z"⟩] := by
    decide
  exact ⟨h.1, h.2.1 _ hmem _ (by decide) rfl, h.2.2 _ hmem⟩

/-- A key-distinct list passes through `dedupPass` unchanged, provided nothing
in `before` shares a key with it. -/
theorem dedupPass_of_pairwise :
    ∀ (l before : List BeerRow),
      l.Pairwise (fun a b => dedupKey a ≠ dedupKey b) →
      (∀ r ∈ l, ∀ s ∈ before, dedupKey s ≠ dedupKey r) →
      dedupPass before l = l := by
  intro l
  induction l with
  | nil => intro before _ _; rfl
  | cons x after ih =>
    intro before hpw hb
    have hpw' := List.pairwise_cons.mp hpw
    have hk : rowNumberOne before x after = true := by
      rw [rowNumberOne_iff]
      constructor
      · intro s hs hkey
        exact absurd hkey (hb x (by simp) s hs)
      · intro s hs hkey
        exact absurd hkey.symm (hpw'.1 s hs)
    unfold dedupPass
    rw [if_pos hk, List.singleton_append]
    congr 1
    apply ih (before ++ [x]) hpw'.2
    intro r hr s hs
    rcases List.mem_append.mp hs with hsb | hsx
    · exact hb r (by simp [hr]) s hsb
    · have : s = x := by simpa using hsx
      rw [this]
      exact hpw'.1 r hr
    
/-- C4: deduplication is idempotent — running `remove_duplicates` on its own
output changes nothing. -/
theorem dedup_idempotent (rows : List BeerRow) :
    remove_duplicates (remove_duplicates rows) = remove_duplicates rows :=
  dedupPass_of_pairwise (remove_duplicates rows) [] (dedupPass_pairwise rows [])
    (by intro r _ s hs; simp at hs)

/-- The async pagination loop consults its source only at pages at or above
the current one. -/
theorem extractAsyncLoop_congr [DecidableEq α] (src src' : Nat → List α) (ps : Nat) :
    ∀ (fuel p : Nat), (∀ q, p ≤ q → src q = src' q) →
      extractAsyncLoop src ps fuel p = extractAsyncLoop src' ps fuel p := by
  intro fuel
  induction fuel with
  | zero => intro p _; rfl
  | succ n ih =>
    intro p h
    unfold extractAsyncLoop
    rw [h p le_rfl, ih (p + 1) (fun q hq => h q (le_trans (Nat.le_succ p) hq))]

/-- Starting the async loop one page later is running it on the shifted source. -/
theorem extractAsyncLoop_shift [DecidableEq α] (src : Nat → List α) (ps : Nat) :
    ∀ (fuel p : Nat),
      extractAsyncLoop src ps fuel (p + 1) =
        extractAsyncLoop (fun q => src (q + 1)) ps fuel p := by
  intro fuel
  induction fuel with
  | zero => intro p; rfl
  | succ n ih =>
    intro p
    unfold extractAsyncLoop
    rw [ih (p + 1)]

/-- Running `_extract_async` against the pages of a list `l` returns all of
`l` and issues `l.length / per_page + 1` page requests, given enough fuel. -/
theorem extractAsync_listPages [DecidableEq α] (per_page : Nat) (hpp : 0 < per_page) :
    ∀ (fuel : Nat) (l : List α), l.length / per_page + 1 ≤ fuel →
      extractAsyncLoop (listPages l per_page) per_page fuel 1 =
        (l, l.length / per_page + 1) := by
  intro fuel
  induction fuel with
  | zero => intro l h; exact absurd h (Nat.not_succ_le_zero _)
  | succ n ih =>
    intro l hfuel
    have h1 : listPages l per_page 1 = l.take per_page := by
      unfold listPages
      norm_num
    by_cases hnil : l = []
    · subst hnil
      simp [extractAsyncLoop, h1]
    · by_cases hshort : l.length < per_page
      · have htake : l.take per_page = l := List.take_of_length_le (le_of_lt hshort)
        unfold extractAsyncLoop
        rw [h1, htake, if_neg hnil, if_pos hshort, Nat.div_eq_of_lt hshort]
      · have hge : per_page ≤ l.length := le_of_not_lt hshort
        have hlen : (l.take per_page).length = per_page := by
          rw [List.length_take]
          omega
        have htne : l.take per_page ≠ [] :=
          List.ne_nil_of_length_pos (by omega)
        have hshift : ∀ q, 1 ≤ q →
            listPages l per_page (q + 1) = listPages (l.drop per_page) per_page q := by
          intro q hq
          unfold listPages
          rw [List.drop_drop]
          have hq1 : q + 1 - 1 = q := Nat.add_sub_cancel q 1
          have hs := Nat.succ_mul (q - 1) per_page
          have hsq : (q - 1).succ = q := by omega
          rw [hsq] at hs
          rw [hq1, hs, Nat.add_comm]
        have hdiv : l.length / per_page = (l.length - per_page) / per_page + 1 :=
          Nat.div_eq_sub_div hpp hge
        have hfuel' : (l.drop per_page).length / per_page + 1 ≤ n := by
          rw [List.length_drop]
          omega
        have hrec : extractAsyncLoop (listPages l per_page) per_page n 2 =
            (l.drop per_page, (l.drop per_page).length / per_page + 1) := by
          rw [show (2 : Nat) = 1 + 1 from rfl, extractAsyncLoop_shift,
            extractAsyncLoop_congr (fun q => listPages l per_page (q + 1))
              (listPages (l.drop per_page) per_page) per_page n 1
              (fun q hq => hshift q hq)]
          exact ih (l.drop per_page) hfuel'
        rw [List.length_drop] at hrec
        unfold extractAsyncLoop
        rw [h1, if_neg htne, if_neg (by omega : ¬ (l.take per_page).length < per_page)]
        dsimp only
        rw [hrec]
        refine Prod.ext ?_ ?_
        · exact List.take_append_drop per_page l
        · show (l.length - per_page) / per_page + 1 + 1 = l.length / per_page + 1
          rw [hdiv]

/-- The loader's loop never issues more page requests than pages remain below
its ceiling (and always issues at least the one request it starts with). -/
theorem extractAllLoop_requests_le [DecidableEq α] (src : Nat → Except Unit (List α)) :
    ∀ (n page : Nat), 51 - page ≤ n → (extractAllLoop src page).2 ≤ max (51 - page) 1 := by
  intro n
  induction n with
  | zero =>
    intro page hp
    have h50 : 50 < page + 1 := by omega
    rw [extractAllLoop]
    cases hsrc : src page with
    | error e => simp [dif_pos h50]
    | ok bs =>
      by_cases hb : bs = []
      · simp [hb]
      · by_cases hshort : bs.length < 200
        · simp [if_neg hb, if_pos hshort]
        · simp [if_neg hb, if_neg hshort, dif_pos h50]
  | succ n ih =>
    intro page hp
    by_cases h50 : 50 < page + 1
    · rw [extractAllLoop]
      cases hsrc : src page with
      | error e => simp [dif_pos h50]
      | ok bs =>
        by_cases hb : bs = []
        · simp [hb]
        · by_cases hshort : bs.length < 200
          · simp [if_neg hb, if_pos hshort]
          · simp [if_neg hb, if_neg hshort, dif_pos h50]
    · have hrec := ih (page + 1) (by omega)
      rw [extractAllLoop]
      cases hsrc : src page with
      | error e =>
        dsimp only
        rw [dif_neg h50]
        dsimp only
        omega
      | ok bs =>
        dsimp only
        by_cases hb : bs = []
        · simp [hb]
        · by_cases hshort : bs.length < 200
          · simp [if_neg hb, if_pos hshort]
          · rw [if_neg hb, if_neg hshort, dif_neg h50]
            dsimp only
            omega

/-- C1 (amended): for every mock source holding exactly `N` records served in
pages of size `per_page`, `_extract_async` returns exactly the `N` records and
issues `N / per_page + 1` page requests — `ceil(N/per_page)` when `per_page`
does not divide `N`, but one more than `ceil(N/per_page)` when it does (the
final empty or first short page must still be observed); `_extract_async`
itself enforces no page ceiling, while `FullDatasetLoader.extract_all_breweries`
never issues more than 50 page requests against any source whatsoever. -/
theorem pagination_termination_request_count
    (N per_page fuel : Nat) (src : Nat → Except Unit (List Nat))
    (hpp : 0 < per_page) (hfuel : N / per_page + 1 ≤ fuel) :
    extract_async (mockPages N per_page) per_page fuel =
      (List.range N, N / per_page + 1) ∧
    (extract_all_breweries src).2 ≤ 50 := by
  constructor
  · have h := extractAsync_listPages per_page hpp fuel (List.range N)
      (by simpa using hfuel)
    simp only [List.length_range] at h
    exact h
  · have h := extractAllLoop_requests_le src 50 1 (by omega)
    have hm : max (51 - 1) 1 = 50 := by norm_num
    rw [hm] at h
    exact h

/-- C1 counterexample: with `N = 2` records and `per_page = 2` the async loop
issues 2 page requests although `ceil(2/2) = 1`; and with `N = 51`,
`per_page = 1` it issues 52 requests, exceeding the claimed hard 50-page
ceiling. -/
theorem pagination_request_count_counterexample :
    (extract_async (mockPages 2 2) 2 10).2 = 2 ∧ (2 : Nat) ≠ 1 ∧
    50 < (extract_async (mockPages 51 1) 1 60).2 := by
  refine ⟨by decide, by decide, by decide⟩

/-- C1 witness at `N = 5`, `per_page = 2` (so `5 / 2 + 1 = 3` requests) and an
always-failing loader source. -/
theorem pagination_termination_request_count_witness :
    extract_async (mockPages 5 2) 2 10 = (List.range 5, 3) ∧
    (extract_all_breweries (fun _ => (Except.error () : Except Unit (List Nat)))).2 ≤ 50 :=
  pagination_termination_request_count 5 2 10 _ (by decide) (by decide)

/-- C2 (amended): against a source of five pages in which page 3 always fails
definitively, `FullDatasetLoader.extract_all_breweries` advances past the
failed page and returns the union of pages 1, 2, 4 and 5 in five page requests,
neither raising nor returning an empty or truncated result; but
`PunkAPIExtractor._extract_async` — whose retry helper collapses a definitively
failed page to `[]`, indistinguishable from end-of-data — stops at the failed
page 3 and returns only the records of pages 1 and 2. -/
theorem partial_failure_resilience (P1 P2 P4 P5 A B C D : List Nat) (ps fuel : Nat)
    (h1 : P1.length = 200) (h2 : P2.length = 200) (h4 : P4.length = 200)
    (h5 : P5.length < 200) (hA : A.length = ps) (hB : B.length = ps)
    (hps : 0 < ps) (hf : 3 ≤ fuel) :
    extract_all_breweries (fivePageSrc P1 P2 P4 P5) = (P1 ++ P2 ++ P4 ++ P5, 5) ∧
    P1 ++ P2 ++ P4 ++ P5 ≠ [] ∧
    extract_async (asyncFivePageSrc A B C D) ps fuel = (A ++ B, 3) := by
  have hne1 : P1 ≠ [] := List.ne_nil_of_length_pos (by omega)
  have hne2 : P2 ≠ [] := List.ne_nil_of_length_pos (by omega)
  have hne4 : P4 ≠ [] := List.ne_nil_of_length_pos (by omega)
  refine ⟨?_, ?_, ?_⟩
  · have s5 : extractAllLoop (fivePageSrc P1 P2 P4 P5) 5 = (P5, 1) := by
      rw [extractAllLoop]
      rw [show fivePageSrc P1 P2 P4 P5 5 = Except.ok P5 from rfl]
      dsimp only
      by_cases hb : P5 = []
      · rw [if_pos hb, hb]
      · rw [if_neg hb, if_pos h5]
    have s4 : extractAllLoop (fivePageSrc P1 P2 P4 P5) 4 = (P4 ++ P5, 2) := by
      rw [extractAllLoop]
      rw [show fivePageSrc P1 P2 P4 P5 4 = Except.ok P4 from rfl]
      dsimp only
      rw [if_neg hne4, if_neg (by omega : ¬ P4.length < 200),
        dif_neg (by omega : ¬ (50 : Nat) < 4 + 1)]
      rw [s5]
    have s3 : extractAllLoop (fivePageSrc P1 P2 P4 P5) 3 = (P4 ++ P5, 3) := by
      rw [extractAllLoop]
      rw [show fivePageSrc P1 P2 P4 P5 3 = Except.error () from rfl]
      dsimp only
      rw [dif_neg (by omega : ¬ (50 : Nat) < 3 + 1)]
      rw [s4]
    have s2 : extractAllLoop (fivePageSrc P1 P2 P4 P5) 2 = (P2 ++ (P4 ++ P5), 4) := by
      rw [extractAllLoop]
      rw [show fivePageSrc P1 P2 P4 P5 2 = Except.ok P2 from rfl]
      dsimp only
      rw [if_neg hne2, if_neg (by omega : ¬ P2.length < 200),
        dif_neg (by omega : ¬ (50 : Nat) < 2 + 1)]
      rw [s3]
    have s1 : extractAllLoop (fivePageSrc P1 P2 P4 P5) 1 =
        (P1 ++ (P2 ++ (P4 ++ P5)), 5) := by
      rw [extractAllLoop]
      rw [show fivePageSrc P1 P2 P4 P5 1 = Except.ok P1 from rfl]
      dsimp only
      rw [if_neg hne1, if_neg (by omega : ¬ P1.length < 200),
        dif_neg (by omega : ¬ (50 : Nat) < 1 + 1)]
      rw [s2]
    unfold extract_all_breweries
    rw [s1]
    simp [List.append_assoc]
  · simp [hne1]
  · obtain ⟨f, rfl⟩ : ∃ f, fuel = f + 3 := ⟨fuel - 3, by omega⟩
    have hneA : A ≠ [] := List.ne_nil_of_length_pos (by omega)
    have hneB : B ≠ [] := List.ne_nil_of_length_pos (by omega)
    have t3 : extractAsyncLoop (asyncFivePageSrc A B C D) ps (f + 1) 3 = ([], 1) := by
      rw [show f + 1 = f + 1 from rfl]
      unfold extractAsyncLoop
      rw [show asyncFivePageSrc A B C D 3 = [] from rfl]
      simp
    have t2 : extractAsyncLoop (asyncFivePageSrc A B C D) ps (f + 2) 2 = (B, 2) := by
      rw [show f + 2 = (f + 1) + 1 from rfl]
      unfold extractAsyncLoop
      rw [show asyncFivePageSrc A B C D 2 = B from rfl]
      dsimp only
      rw [if_neg hneB, if_neg (by omega : ¬ B.length < ps)]
      rw [t3]
      simp
    have t1 : extractAsyncLoop (asyncFivePageSrc A B C D) ps (f + 3) 1 = (A ++ B, 3) := by
      rw [show f + 3 = (f + 2) + 1 from rfl]
      unfold extractAsyncLoop
      rw [show asyncFivePageSrc A B C D 1 = A from rfl]
      dsimp only
      rw [if_neg hneA, if_neg (by omega : ¬ A.length < ps)]
      rw [t2]
    unfold extract_async
    exact t1

/-- C2 counterexample: a five-page source with singleton pages (page size 1)
whose page 3 fails; `_extract_async` returns only pages 1-2 (`[10, 11]`, 3 page
requests), not the union `[10, 11, 12, 13]` of pages 1, 2, 4 and 5. -/
theorem partial_failure_resilience_counterexample :
    extract_async (asyncFivePageSrc [10] [11] [12] [13]) 1 10 = ([10, 11], 3) ∧
    ([10, 11] : List Nat) ≠ [10, 11, 12, 13] := by
  refine ⟨by decide, by decide⟩

/-- C2 witness: loader pages of 200 records with page 3 failing, and the async
run with singleton pages 1-2. -/
theorem partial_failure_resilience_witness :
    extract_all_breweries
        (fivePageSrc (List.range 200) (List.range 200) (List.range 200) [7]) =
      (List.range 200 ++ List.range 200 ++ List.range 200 ++ [7], 5) ∧
    List.range 200 ++ List.range 200 ++ List.range 200 ++ [7] ≠ [] ∧
    extract_async (asyncFivePageSrc [1, 2, 3] [4, 5, 6] [9] [8]) 3 10 =
      ([1, 2, 3] ++ [4, 5, 6], 3) :=
  partial_failure_resilience (List.range 200) (List.range 200) (List.range 200) [7]
    [1, 2, 3] [4, 5, 6] [9] [8] 3 10 (by simp) (by simp) (by simp) (by norm_num)
    (by decide) (by decide) (by decide) (by decide)

/-- Whether an attempt observed an HTTP 200 response. -/
def is200 : AttemptResult α → Bool
  | .http status _ => status == 200
  | .timeout => false
  | .exn => false

/-- The body of an attempt's HTTP response (`[]` for non-HTTP outcomes). -/
def attemptBody : AttemptResult α → List α
  | .http _ body => body
  | .timeout => []
  | .exn => []

/-- If no attempt in the window returns 200, the retry loop consumes every
remaining attempt and yields the empty result. -/
theorem fetchRetryLoop_exhaust (responses : Nat → AttemptResult α) :
    ∀ (remaining used : Nat),
      (∀ i, used ≤ i → i < used + remaining → is200 (responses i) = false) →
      fetchRetryLoop responses remaining used = ([], used + remaining) := by
  intro remaining
  induction remaining with
  | zero => intro used _; rfl
  | succ n ih =>
    intro used h
    have h0 : is200 (responses used) = false := h used le_rfl (by omega)
    have hrec : fetchRetryLoop responses n (used + 1) = ([], used + 1 + n) :=
      ih (used + 1) (fun i hi1 hi2 => h i (by omega) (by omega))
    have harith : used + 1 + n = used + (n + 1) := by omega
    unfold fetchRetryLoop
    cases hr : responses used with
    | http status body =>
      rw [hr] at h0
      have hst : ¬ status = 200 := by simpa [is200] using h0
      dsimp only
      rw [if_neg hst, hrec, harith]
    | timeout => dsimp only; rw [hrec, harith]
    | exn => dsimp only; rw [hrec, harith]

/-- The retry loop returns the body of the first attempt that answers 200,
after exactly that attempt. -/
theorem fetchRetryLoop_first200 (responses : Nat → AttemptResult α) :
    ∀ (i remaining used : Nat),
      (∀ j, used ≤ j → j < used + i → is200 (responses j) = false) →
      is200 (responses (used + i)) = true →
      used + i < used + remaining →
      fetchRetryLoop responses remaining used =
        (attemptBody (responses (used + i)), used + i + 1) := by
  intro i
  induction i with
  | zero =>
    intro remaining used _ h200 hlt
    obtain ⟨m, rfl⟩ : ∃ m, remaining = m + 1 := ⟨remaining - 1, by omega⟩
    rw [Nat.add_zero] at h200 ⊢
    unfold fetchRetryLoop
    cases hr : responses used with
    | http status body =>
      rw [hr] at h200
      have hst : status = 200 := by simpa [is200] using h200
      dsimp only
      rw [if_pos hst]
      simp [hr, attemptBody]
    | timeout => rw [hr] at h200; simp [is200] at h200
    | exn => rw [hr] at h200; simp [is200] at h200
  | succ n ih =>
    intro remaining used hbefore h200 hlt
    obtain ⟨m, rfl⟩ : ∃ m, remaining = m + 1 := ⟨remaining - 1, by omega⟩
    have h0 : is200 (responses used) = false := hbefore used le_rfl (by omega)
    have harith : used + 1 + n = used + (n + 1) := by omega
    have hrec : fetchRetryLoop responses m (used + 1) =
        (attemptBody (responses (used + 1 + n)), used + 1 + n + 1) :=
      ih m (used + 1) (fun j h1 h2 => hbefore j (by omega) (by omega))
        (by rw [harith]; exact h200) (by omega)
    rw [harith] at hrec
    unfold fetchRetryLoop
    cases hr : responses used with
    | http status body =>
      rw [hr] at h0
      have hst : ¬ status = 200 := by simpa [is200] using h0
      dsimp only
      rw [if_neg hst, hrec]
    | timeout => dsimp only; rw [hrec]
    | exn => dsimp only; rw [hrec]

/-- C6 (amended): `_fetch_page_with_retry` treats every non-200 outcome alike.
An HTTP 4xx other than 429 (e.g. 404) is not dropped after a single attempt:
the loop keeps retrying with backoff until some attempt answers 200 (the page
is served after `i + 1` attempts, `i` the first 200-index) or all
`retry_attempts` attempts are exhausted (the page then yields the empty
result).  Only a 200 response ends the attempt loop early. -/
theorem fetch_retry_only_200_stops (responses : Nat → AttemptResult α) (n i : Nat) :
    ((∀ j, j < n → is200 (responses j) = false) →
      fetch_page_with_retry responses n = ([], n)) ∧
    (i < n → is200 (responses i) = true →
      (∀ j, j < i → is200 (responses j) = false) →
      fetch_page_with_retry responses n = (attemptBody (responses i), i + 1)) := by
  constructor
  · intro h
    unfold fetch_page_with_retry
    have hx := fetchRetryLoop_exhaust responses n 0 (fun j _ h2 => h j (by omega))
    simpa using hx
  · intro hlt h200 hbefore
    unfold fetch_page_with_retry
    have hx := fetchRetryLoop_first200 responses i n 0
      (fun j _ h2 => hbefore j (by omega)) (by simpa using h200) (by omega)
    simpa using hx

/-- C6 counterexample: with every attempt answering HTTP 404, the client
performs all 3 retry attempts for the page rather than dropping it after the
first; and once the failed page yields its empty result, `_extract_async`
stops rather than continuing with subsequent pages (the later page holding
`[7]` is never requested: only 2 page requests are issued). -/
theorem fetch_retry_4xx_counterexample :
    (fetch_page_with_retry (fun _ => AttemptResult.http 404 ([] : List Nat)) 3).2 = 3 ∧
    (3 : Nat) ≠ 1 ∧
    extract_async
        (fun p => if p = 1 then [5] else if p = 3 then [7] else ([] : List Nat))
        1 10 = ([5], 2) := by
  refine ⟨by decide, by decide, by decide⟩

/-- C6 witness: attempt 0 answers 404 and attempt 1 answers 200 with one
record, so the page is served after 2 attempts; with every attempt answering
500, all 3 attempts are used and the page yields `[]`. -/
theorem fetch_retry_only_200_stops_witness :
    fetch_page_with_retry
        (fun j => if j = 1 then AttemptResult.http 200 [9]
          else AttemptResult.http 404 ([] : List Nat)) 3 = ([9], 2) ∧
    fetch_page_with_retry (fun _ => AttemptResult.http 500 ([] : List Nat)) 3 =
      ([], 3) := by
  constructor
  · exact (fetch_retry_only_200_stops
      (fun j => if j = 1 then AttemptResult.http 200 [9]
        else AttemptResult.http 404 ([] : List Nat)) 3 1).2
      (by decide) (by decide) (by decide)
  · exact (fetch_retry_only_200_stops
      (fun _ => AttemptResult.http 500 ([] : List Nat)) 3 0).1 (by decide)

/-- Every record normalized from the secondary source carries its tag. -/
theorem extract_openbrewery_data_tag (w : APIWorld) :
    ∀ r ∈ extract_openbrewery_data w, r.data_source = "openbrewery_db" := by
  intro r hr
  unfold extract_openbrewery_data at hr
  cases hob : w.openbrewery_response with
  | ok bs =>
    rw [hob] at hr
    obtain ⟨b, _, rfl⟩ := List.mem_map.mp hr
    rfl
  | error e =>
    rw [hob] at hr
    simp at hr

/-- Under a failed primary, `extract_with_fallback` reduces to the secondary
leg of the source code. -/
theorem extract_with_fallback_of_primary_failed (w : APIWorld)
    (hfail : w.punk_conn = false ∨ extract_punk_api_data w = []) :
    extract_with_fallback w =
      (if w.openbrewery_conn then
        (if extract_openbrewery_data w ≠ [] then extract_openbrewery_data w else [])
      else []) := by
  rcases hfail with hpc | hdata
  · simp [extract_with_fallback, hpc]
  · by_cases hpc : w.punk_conn <;> simp [extract_with_fallback, hpc, hdata]

/-- C5: if the primary's connectivity probe succeeds and its fetch yields a
nonempty normalized result, `extract_with_fallback` returns that result; if the
primary's probe fails or its fetch normalizes to zero records, the secondary is
probed and used (its nonempty normalized result is returned, and every record
of the returned sequence carries `data_source = "openbrewery_db"`); if both
sources fail (probe failure, fetch exception, or empty result on each side),
the empty sequence is returned. -/
theorem fallback_extractor_spec (w : APIWorld) :
    (w.punk_conn = true → extract_punk_api_data w ≠ [] →
      extract_with_fallback w = extract_punk_api_data w) ∧
    ((w.punk_conn = false ∨ extract_punk_api_data w = []) →
      (w.openbrewery_conn = true → extract_openbrewery_data w ≠ [] →
        extract_with_fallback w = extract_openbrewery_data w) ∧
      (∀ r ∈ extract_with_fallback w, r.data_source = "openbrewery_db") ∧
      ((w.openbrewery_conn = false ∨ extract_openbrewery_data w = []) →
        extract_with_fallback w = [])) := by
  constructor
  · intro hpc hne
    simp [extract_with_fallback, hpc, hne]
  · intro hfail
    have hred := extract_with_fallback_of_primary_failed w hfail
    refine ⟨?_, ?_, ?_⟩
    · intro hoc hne
      rw [hred]
      simp [hoc, hne]
    · intro r hr
      rw [hred] at hr
      by_cases hoc : w.openbrewery_conn
      · rw [if_pos hoc] at hr
        by_cases hne : extract_openbrewery_data w ≠ []
        · rw [if_pos hne] at hr
          exact extract_openbrewery_data_tag w r hr
        · rw [if_neg hne] at hr
          simp at hr
      · rw [if_neg hoc] at hr
        simp at hr
    · intro hofail
      rw [hred]
      rcases hofail with hoc | hdata
      · simp [hoc]
      · simp [hdata]

/-- C5 witness: a world whose primary probe fails and whose secondary serves
one brewery — the fallback returns the secondary's normalized data, every
record tagged `openbrewery_db`. -/
theorem fallback_extractor_spec_witness :
    extract_with_fallback ⟨false, .error (), true, .ok [⟨1, "X", "micro"⟩]⟩ =
      extract_openbrewery_data ⟨false, .error (), true, .ok [⟨1, "X", "micro"⟩]⟩ ∧
    ∀ r ∈ extract_with_fallback ⟨false, .error (), true, .ok [⟨1, "X", "micro"⟩]⟩,
      r.data_source = "openbrewery_db" := by
  have h := (fallback_extractor_spec
    ⟨false, .error (), true, .ok [⟨1, "X", "micro"⟩]⟩).2 (Or.inl rfl)
  exact ⟨h.1 rfl (by decide), h.2.1⟩
